import Mathlib

/-!
A verification development for the DR-VCTK dataset-access layer
(`torchaudio/datasets/dr_vctk.py`).

Strings from the Python code are embedded as `List Char` (called `PyStr`),
so that Python's `str.strip`, `str.split(sep)` and `int(...)` can be
given faithful executable counterparts and reasoned about by structural
induction.  External collaborators (audio decoding, archive download,
checksum computation, extraction) are modelled as parameters or boolean
oracles in a `World` record, and the constructor records the sequence of
collaborator invocations it performs in an `Effect` trace.
-/

abbrev PyStr := List Char

/-- The ASCII whitespace characters stripped by Python's `str.strip()`
(space, tab, newline, carriage return, vertical tab, form feed). -/
def pyIsSpace (c : Char) : Bool :=
  c = ' ' || c = '\t' || c = '\n' || c = '\r' || c = '\x0b' || c = '\x0c'

/-- Python `s.strip()`: remove whitespace from both ends. -/
def pyStrip (s : PyStr) : PyStr :=
  ((s.dropWhile pyIsSpace).reverse.dropWhile pyIsSpace).reverse

/-- Python `s.split(sep)` for a single-character separator `sep`:
every occurrence of `sep` is a cut point, empty pieces are kept, and
`"".split(sep) == [""]`. -/
def splitOnChar (sep : Char) : PyStr → List PyStr
  | [] => [[]]
  | c :: cs =>
    if c = sep then [] :: splitOnChar sep cs
    else
      match splitOnChar sep cs with
      | [] => [[c]]
      | p :: ps => (c :: p) :: ps

/-- Joining pieces back with the separator (inverse of `splitOnChar`). -/
def joinWith (sep : Char) : List PyStr → PyStr
  | [] => []
  | [p] => p
  | p :: q :: ps => p ++ sep :: joinWith sep (q :: ps)

/-- Numeric value of an ASCII digit. -/
def digitVal (c : Char) : Nat := c.toNat - '0'.toNat

def isDigitChar (c : Char) : Bool := '0' ≤ c && c ≤ '9'

/-- Digits of a Python integer literal after the first digit: plain digits,
with single underscores allowed between digits (Python 3.6+ grouping). -/
def parseDigits : PyStr → Nat → Option Nat
  | [], acc => some acc
  | '_' :: c :: cs, acc =>
    if isDigitChar c then parseDigits cs (acc * 10 + digitVal c) else none
  | ['_'], _ => none
  | c :: cs, acc =>
    if isDigitChar c then parseDigits cs (acc * 10 + digitVal c) else none

/-- Python `int(s)` on a decimal string: surrounding whitespace is
stripped, an optional sign is allowed, then a nonempty digit sequence
(with underscore grouping); anything else raises `ValueError`, modelled
as `none`. -/
def pyInt (s : PyStr) : Option Int :=
  match pyStrip s with
  | [] => none
  | '+' :: rest =>
    match rest with
    | [] => none
    | c :: cs =>
      if isDigitChar c then (parseDigits cs (digitVal c)).map Int.ofNat else none
  | '-' :: rest =>
    match rest with
    | [] => none
    | c :: cs =>
      if isDigitChar c then (parseDigits cs (digitVal c)).map (fun n => -(n : Int)) else none
  | c :: cs =>
    if isDigitChar c then (parseDigits cs (digitVal c)).map Int.ofNat else none

/-- The stem `filename.split(".")[0]` from `_load_dr_vctk_item`: the part of the
filename before the first `'.'` (the whole filename when it has no `'.'`). -/
def stemOf (f : PyStr) : PyStr := (splitOnChar '.' f).headD []

/-- The spec's "extension" of a filename: everything after the first `'.'`. -/
def extOf : PyStr → PyStr
  | [] => []
  | c :: cs => if c = '.' then cs else extOf cs

/-- The destructuring `speaker_id, utterance_id = filename.split(".")[0].split("_")` from
`_load_dr_vctk_item`: succeeds exactly when the stem splits on `'_'` into
two pieces; otherwise Python raises `ValueError` (modelled as `none`). -/
def decomposeFilename (f : PyStr) : Option (PyStr × PyStr) :=
  match splitOnChar '_' (stemOf f) with
  | [speakerId, utteranceId] => some (speakerId, utteranceId)
  | _ => none

/-- One manifest data line, from `_load_config`:
`filename, source, channel_id = line.strip().split("\t")` followed by
`int(channel_id)`.  `none` models the `ValueError` either step raises. -/
def parseLine (line : PyStr) : Option (PyStr × PyStr × Int) :=
  match splitOnChar '\t' (pyStrip line) with
  | [filename, source, channelId] =>
    match pyInt channelId with
    | some k => some (filename, source, k)
    | none => none
  | _ => none

/-- The in-memory manifest: a Python `dict` as an insertion-ordered
association list from filename to `(source, channel_id)`. -/
abbrev Manifest := List (PyStr × PyStr × Int)

def dictKeys (cfg : Manifest) : List PyStr := cfg.map (fun e => e.1)

/-- Python `config[filename] = value`: update in place when the key is
present (keeping its position), append otherwise. -/
def dictInsert (cfg : Manifest) (k : PyStr) (v : PyStr × Int) : Manifest :=
  if k ∈ dictKeys cfg then
    cfg.map (fun e => if e.1 = k then (k, v.1, v.2) else e)
  else
    cfg ++ [(k, v.1, v.2)]

/-- Python `config[filename]` lookup. -/
def dictLookup (cfg : Manifest) (k : PyStr) : Option (PyStr × Int) :=
  match cfg.find? (fun e => decide (e.1 = k)) with
  | some e => some e.2
  | none => none

/-- The body of `_load_config`'s loop restricted to the lines after the
header: skip empty strings, parse every other line, abort on the first
malformed line.  (Used to state what the loop does past the header.) -/
def processLines : List PyStr → Manifest → Except Unit Manifest
  | [], cfg => Except.ok cfg
  | line :: rest, cfg =>
    if line = [] then processLines rest cfg
    else
      match parseLine line with
      | some (filename, source, channelId) =>
        processLines rest (dictInsert cfg filename (source, channelId))
      | none => Except.error ()

/-- Header size: `skip_rows = 2 if self._subset == "train" else 1` from `_load_config`. -/
def skipRows (subset : String) : Nat := if subset = "train" then 2 else 1

/-- The loop of `_load_config`:
`for i, line in enumerate(f): if i < skip_rows or not line: continue; ...`. -/
def loadConfigLoop (skip : Nat) : Nat → List PyStr → Manifest → Except Unit Manifest
  | _, [], cfg => Except.ok cfg
  | i, line :: rest, cfg =>
    if i < skip ∨ line = [] then loadConfigLoop skip (i + 1) rest cfg
    else
      match parseLine line with
      | some (filename, source, channelId) =>
        loadConfigLoop skip (i + 1) rest (dictInsert cfg filename (source, channelId))
      | none => Except.error ()

/-- The function `_load_config` over the list of lines yielded by iterating the file. -/
def loadConfig (subset : String) (lines : List PyStr) : Except Unit Manifest :=
  loadConfigLoop (skipRows subset) 0 lines []

/-- Iterating a Python text file yields its lines with the `'\n'`
terminator kept; the final line is yielded without one when the file does
not end in `'\n'`, and an empty tail yields nothing. -/
def pyLinesAux : PyStr → PyStr → List PyStr
  | [], acc => if acc = [] then [] else [acc.reverse]
  | c :: cs, acc =>
    if c = '\n' then (acc.reverse ++ ['\n']) :: pyLinesAux cs []
    else pyLinesAux cs (c :: acc)

def pyLines (content : PyStr) : List PyStr := pyLinesAux content []

/-- Python string comparison: lexicographic by code point. -/
def strLe : PyStr → PyStr → Bool
  | [], _ => true
  | _ :: _, [] => false
  | a :: as, b :: bs => if a = b then strLe as bs else decide (a < b)

/-- Insertion step of `sorted(...)` on the manifest keys. -/
def orderedInsertStr (x : PyStr) : List PyStr → List PyStr
  | [] => [x]
  | y :: ys => if strLe x y then x :: y :: ys else y :: orderedInsertStr x ys

/-- Sorting `sorted(self._config)`: the manifest keys in ascending lexicographic
order (insertion sort; the keys are distinct so any stable sort agrees). -/
def sortStrings : List PyStr → List PyStr
  | [] => []
  | x :: xs => orderedInsertStr x (sortStrings xs)

/-- The constant `_SUPPORTED_SUBSETS`, holding "train" and "test". -/
def supportedSubsets : List String := ["train", "test"]

/-- Path concatenation, the `/` operator of `pathlib`. -/
def pathJoin (a b : PyStr) : PyStr := a ++ '/' :: b

/-- The collaborator-visible state the constructor consults:
`self._path.is_dir()`, `archive.is_file()`, the verdict of
`validate_file` on the archive, and the text of the configuration file
(the download/extraction collaborators are assumed to succeed when
invoked; what they produce is summarised by these oracles). -/
structure World where
  rootIsDir : Bool
  archiveIsFile : Bool
  checksumValid : Bool
  configContent : PyStr
deriving DecidableEq, Repr

/-- The collaborator invocations `__init__` can perform, in order. -/
inductive Effect
  | checkRootIsDir
  | checkArchiveIsFile
  | downloadArchive
  | validateChecksum
  | extractArchive
  | readConfigFile
deriving DecidableEq, Repr

/-- The `RuntimeError`s / `ValueError`s construction can raise. -/
inductive CError
  | invalidSubset
  | datasetNotFound
  | checksumMismatch
  | parseFailure
deriving DecidableEq, Repr

/-- A constructed `DR_VCTK` instance: the fields `__init__` stores. -/
structure DRVCTK where
  subset : String
  cleanAudioDir : PyStr
  noisyAudioDir : PyStr
  configFilepath : PyStr
  config : Manifest
  filenameList : List PyStr
deriving DecidableEq, Repr

/-- The constructor `DR_VCTK.__init__`: validate the subset, compute the canonical paths,
provision (download / checksum / extract) when the dataset root is
absent, then parse the manifest and sort its keys.  Returns the
constructed instance or the error raised, paired with the trace of
collaborator invocations performed. -/
def construct (root : PyStr) (subset : String) (download : Bool) (w : World) :
    Except CError DRVCTK × List Effect :=
  if subset ∈ supportedSubsets then
    let path := pathJoin (pathJoin root "DR-VCTK".data) "DR-VCTK".data
    let cleanDir := pathJoin path ("clean_".data ++ subset.data ++ "set_wav_16k".data)
    let noisyDir := pathJoin path ("device-recorded_".data ++ subset.data ++ "set_wav_16k".data)
    let configPath := pathJoin (pathJoin path "configurations".data) (subset.data ++ "_ch_log.txt".data)
    let prov : List Effect × Option CError :=
      if w.rootIsDir then ([Effect.checkRootIsDir], none)
      else if w.archiveIsFile then
        if w.checksumValid then
          ([Effect.checkRootIsDir, Effect.checkArchiveIsFile,
            Effect.validateChecksum, Effect.extractArchive], none)
        else
          ([Effect.checkRootIsDir, Effect.checkArchiveIsFile,
            Effect.validateChecksum], some CError.checksumMismatch)
      else if download then
        if w.checksumValid then
          ([Effect.checkRootIsDir, Effect.checkArchiveIsFile, Effect.downloadArchive,
            Effect.validateChecksum, Effect.extractArchive], none)
        else
          ([Effect.checkRootIsDir, Effect.checkArchiveIsFile, Effect.downloadArchive,
            Effect.validateChecksum], some CError.checksumMismatch)
      else
        ([Effect.checkRootIsDir, Effect.checkArchiveIsFile], some CError.datasetNotFound)
    match prov.2 with
    | some e => (Except.error e, prov.1)
    | none =>
      match loadConfig subset (pyLines w.configContent) with
      | Except.error _ => (Except.error CError.parseFailure, prov.1 ++ [Effect.readConfigFile])
      | Except.ok cfg =>
        (Except.ok { subset := subset, cleanAudioDir := cleanDir, noisyAudioDir := noisyDir,
                     configFilepath := configPath, config := cfg,
                     filenameList := sortStrings (dictKeys cfg) },
         prov.1 ++ [Effect.readConfigFile])
  else (Except.error CError.invalidSubset, [])

/-- Python list indexing `lst[n]` for an `int` index: negative indices
count from the end; out of range raises `IndexError` (modelled `none`). -/
def pyListGet {α : Type} (l : List α) (n : Int) : Option α :=
  let i : Int := if n < 0 then n + l.length else n
  if 0 ≤ i then l[i.toNat]? else none

/-- The exceptions `__getitem__` can raise at this layer: `IndexError`
from the list index, `KeyError` from the manifest lookup, `ValueError`
from the filename decomposition. -/
inductive GetError
  | indexError
  | keyError
  | decompositionError
deriving DecidableEq, Repr

/-- The 8-tuple `_load_dr_vctk_item` returns; the waveform type `W` is
whatever the audio-decoding collaborator produces. -/
structure Sample (W : Type) where
  waveformClean : W
  sampleRateClean : Int
  waveformNoisy : W
  sampleRateNoisy : Int
  speakerId : PyStr
  utteranceId : PyStr
  source : PyStr
  channelId : Int
deriving DecidableEq, Repr

/-- The loader `_load_dr_vctk_item`: decompose the filename, look it up in the
manifest, decode the clean and noisy audio files, assemble the tuple.
`decode` is the external `torchaudio.load` collaborator. -/
def loadDrVctkItem {W : Type} (decode : PyStr → W × Int) (d : DRVCTK) (filename : PyStr) :
    Except GetError (Sample W) :=
  match decomposeFilename filename with
  | none => Except.error GetError.decompositionError
  | some (speakerId, utteranceId) =>
    match dictLookup d.config filename with
    | none => Except.error GetError.keyError
    | some (source, channelId) =>
      let clean := decode (pathJoin d.cleanAudioDir filename)
      let noisy := decode (pathJoin d.noisyAudioDir filename)
      Except.ok { waveformClean := clean.1, sampleRateClean := clean.2,
                  waveformNoisy := noisy.1, sampleRateNoisy := noisy.2,
                  speakerId := speakerId, utteranceId := utteranceId,
                  source := source, channelId := channelId }

/-- Indexed access `DR_VCTK.__getitem__`: `filename = self._filename_list[n]` followed by
`_load_dr_vctk_item(filename)`. -/
def getItem {W : Type} (decode : PyStr → W × Int) (d : DRVCTK) (n : Int) :
    Except GetError (Sample W) :=
  match pyListGet d.filenameList n with
  | none => Except.error GetError.indexError
  | some filename => loadDrVctkItem decode d filename

/-- The length operation `DR_VCTK.__len__`. -/
def datasetLength (d : DRVCTK) : Nat := d.filenameList.length

/-- The filenames carried by the (non-empty, well-formed) data lines, in
order of appearance.  This is the specification-side notion "filenames
among the data lines" that `length()` is compared against. -/
def lineNames : List PyStr → List PyStr
  | [] => []
  | line :: rest =>
    if line = [] then lineNames rest
    else
      match parseLine line with
      | some (filename, _, _) => filename :: lineNames rest
      | none => lineNames rest

/-- A stand-in audio-decoding collaborator for concrete runs. -/
def unitDecode : PyStr → Unit × Int := fun _ => ((), 16000)

def drvRoot : PyStr := "root".data

def c1CexWorld : World :=
  { rootIsDir := true, archiveIsFile := false, checksumValid := true,
    configContent := "h1\nh2\na_b\tDR\t1\n".data }

def c1CexD : DRVCTK :=
  { subset := "train",
    cleanAudioDir := "root/DR-VCTK/DR-VCTK/clean_trainset_wav_16k".data,
    noisyAudioDir := "root/DR-VCTK/DR-VCTK/device-recorded_trainset_wav_16k".data,
    configFilepath := "root/DR-VCTK/DR-VCTK/configurations/train_ch_log.txt".data,
    config := [("a_b".data, "DR".data, 1)],
    filenameList := ["a_b".data] }

def c1CexSample : Sample Unit :=
  { waveformClean := (), sampleRateClean := 16000, waveformNoisy := (), sampleRateNoisy := 16000,
    speakerId := "a".data, utteranceId := "b".data, source := "DR".data, channelId := 1 }

def c1WitD : DRVCTK :=
  { subset := "train", cleanAudioDir := [], noisyAudioDir := [], configFilepath := [],
    config := [("p225_001.wav".data, "DR".data, 1)],
    filenameList := ["p225_001.wav".data] }

def c1WitSample : Sample Unit :=
  { waveformClean := (), sampleRateClean := 16000, waveformNoisy := (), sampleRateNoisy := 16000,
    speakerId := "p225".data, utteranceId := "001".data, source := "DR".data, channelId := 1 }

def c2CexWorld : World :=
  { rootIsDir := true, archiveIsFile := false, checksumValid := true,
    configContent := "h\np225_001.wav\tDR\t1\n".data }

def c2CexD : DRVCTK :=
  { subset := "test",
    cleanAudioDir := "root/DR-VCTK/DR-VCTK/clean_testset_wav_16k".data,
    noisyAudioDir := "root/DR-VCTK/DR-VCTK/device-recorded_testset_wav_16k".data,
    configFilepath := "root/DR-VCTK/DR-VCTK/configurations/test_ch_log.txt".data,
    config := [("p225_001.wav".data, "DR".data, 1)],
    filenameList := ["p225_001.wav".data] }

def c2CexSample : Sample Unit :=
  { waveformClean := (), sampleRateClean := 16000, waveformNoisy := (), sampleRateNoisy := 16000,
    speakerId := "p225".data, utteranceId := "001".data, source := "DR".data, channelId := 1 }

def c3CexWorld : World :=
  { rootIsDir := true, archiveIsFile := false, checksumValid := true,
    configContent := "h\na_b.c.d\tDR\t1\n".data }

def c3CexD : DRVCTK :=
  { subset := "test",
    cleanAudioDir := "root/DR-VCTK/DR-VCTK/clean_testset_wav_16k".data,
    noisyAudioDir := "root/DR-VCTK/DR-VCTK/device-recorded_testset_wav_16k".data,
    configFilepath := "root/DR-VCTK/DR-VCTK/configurations/test_ch_log.txt".data,
    config := [("a_b.c.d".data, "DR".data, 1)],
    filenameList := ["a_b.c.d".data] }

def c3CexSample : Sample Unit :=
  { waveformClean := (), sampleRateClean := 16000, waveformNoisy := (), sampleRateNoisy := 16000,
    speakerId := "a".data, utteranceId := "b".data, source := "DR".data, channelId := 1 }

def c3WitD : DRVCTK :=
  { subset := "test", cleanAudioDir := [], noisyAudioDir := [], configFilepath := [],
    config := [("ab.wav".data, "DR".data, 1)],
    filenameList := ["ab.wav".data] }

def c6WitWorld : World :=
  { rootIsDir := true, archiveIsFile := false, checksumValid := true,
    configContent := "h\nx\ta\t1\nx\tb\t2\ny\tc\t3".data }

def c6WitD : DRVCTK :=
  { subset := "test",
    cleanAudioDir := "root/DR-VCTK/DR-VCTK/clean_testset_wav_16k".data,
    noisyAudioDir := "root/DR-VCTK/DR-VCTK/device-recorded_testset_wav_16k".data,
    configFilepath := "root/DR-VCTK/DR-VCTK/configurations/test_ch_log.txt".data,
    config := [("x".data, "b".data, 2), ("y".data, "c".data, 3)],
    filenameList := ["x".data, "y".data] }

def c7WitWorld : World :=
  { rootIsDir := true, archiveIsFile := false, checksumValid := true,
    configContent := "h\nb.wav\ts\t1\na.wav\ts\t2\n".data }

def c7WitD : DRVCTK :=
  { subset := "test",
    cleanAudioDir := "root/DR-VCTK/DR-VCTK/clean_testset_wav_16k".data,
    noisyAudioDir := "root/DR-VCTK/DR-VCTK/device-recorded_testset_wav_16k".data,
    configFilepath := "root/DR-VCTK/DR-VCTK/configurations/test_ch_log.txt".data,
    config := [("b.wav".data, "s".data, 1), ("a.wav".data, "s".data, 2)],
    filenameList := ["a.wav".data, "b.wav".data] }

def c9WitWorld : World :=
  { rootIsDir := false, archiveIsFile := true, checksumValid := false, configContent := [] }

def c8WitWorld : World :=
  { rootIsDir := false, archiveIsFile := false, checksumValid := false, configContent := [] }

instance {E A : Type} [DecidableEq E] [DecidableEq A] : DecidableEq (Except E A) := fun a b =>
  match a, b with
  | Except.ok x, Except.ok y =>
    if h : x = y then isTrue (by rw [h]) else isFalse (fun hc => h (Except.ok.inj hc))
  | Except.error x, Except.error y =>
    if h : x = y then isTrue (by rw [h]) else isFalse (fun hc => h (Except.error.inj hc))
  | Except.ok _, Except.error _ => isFalse (fun hc => Except.noConfusion hc)
  | Except.error _, Except.ok _ => isFalse (fun hc => Except.noConfusion hc)

theorem splitOnChar_ne_nil (sep : Char) (s : PyStr) : splitOnChar sep s ≠ [] := by
  cases s with
  | nil => simp [splitOnChar]
  | cons c cs =>
    simp only [splitOnChar]
    split
    · simp
    · split
      · simp
      · simp

theorem joinWith_splitOnChar (sep : Char) (s : PyStr) :
    joinWith sep (splitOnChar sep s) = s := by
  induction s with
  | nil => simp [splitOnChar, joinWith]
  | cons c cs ih =>
    simp only [splitOnChar]
    by_cases hc : c = sep
    · rw [if_pos hc]
      obtain ⟨p, ps, hps⟩ := List.exists_cons_of_ne_nil (splitOnChar_ne_nil sep cs)
      rw [hps]
      rw [hps] at ih
      simp [joinWith, ih, hc]
    · rw [if_neg hc]
      obtain ⟨p, ps, hps⟩ := List.exists_cons_of_ne_nil (splitOnChar_ne_nil sep cs)
      rw [hps]
      rw [hps] at ih
      cases ps with
      | nil => simpa [joinWith] using ih
      | cons q qs =>
        simp only [joinWith] at ih ⊢
        simp [← ih]

/-- The number of pieces produced by a split is one more than the number
of separator occurrences. -/
theorem splitOnChar_length (sep : Char) (s : PyStr) :
    (splitOnChar sep s).length = s.count sep + 1 := by
  induction s with
  | nil => simp [splitOnChar]
  | cons c cs ih =>
    simp only [splitOnChar]
    by_cases hc : c = sep
    · subst hc
      simp [List.count_cons, ih]
    · rw [if_neg hc]
      obtain ⟨p, ps, hps⟩ := List.exists_cons_of_ne_nil (splitOnChar_ne_nil sep cs)
      rw [hps]
      rw [hps] at ih
      simp only [List.length_cons] at ih ⊢
      have hcount : (c :: cs).count sep = cs.count sep := by
        simp [List.count_cons, hc]
      omega

theorem stemOf_nil : stemOf [] = [] := rfl

theorem stemOf_cons (c : Char) (cs : PyStr) :
    stemOf (c :: cs) = if c = '.' then [] else c :: stemOf cs := by
  by_cases hc : c = '.'
  · simp [stemOf, splitOnChar, hc]
  · simp only [stemOf, splitOnChar, if_neg hc]
    obtain ⟨p, ps, hps⟩ := List.exists_cons_of_ne_nil (splitOnChar_ne_nil '.' cs)
    rw [hps]
    simp

theorem extOf_cons (c : Char) (cs : PyStr) :
    extOf (c :: cs) = if c = '.' then cs else extOf cs := rfl

/-- The stem, the first dot (when there is one) and the extension
reassemble the filename. -/
theorem stemOf_append_extOf (f : PyStr) :
    stemOf f ++ (if '.' ∈ f then '.' :: extOf f else []) = f := by
  induction f with
  | nil => simp [stemOf_nil]
  | cons c cs ih =>
    rw [stemOf_cons, extOf_cons]
    by_cases hc : c = '.'
    · simp [hc]
    · have hmem : '.' ∈ c :: cs ↔ '.' ∈ cs := by
        constructor
        · intro h
          rcases List.mem_cons.mp h with h | h
          · exact absurd h.symm hc
          · exact h
        · intro h
          exact List.mem_cons_of_mem _ h
      rw [if_neg hc, if_neg hc]
      simp only [hmem]
      rw [List.cons_append, ih]

/-- A successful decomposition joins back to the stem. -/
theorem decomposeFilename_join {f speakerId utteranceId : PyStr}
    (h : decomposeFilename f = some (speakerId, utteranceId)) :
    speakerId ++ '_' :: utteranceId = stemOf f := by
  have hj := joinWith_splitOnChar '_' (stemOf f)
  unfold decomposeFilename at h
  rcases hs : splitOnChar '_' (stemOf f) with _ | ⟨s, _ | ⟨u, _ | ⟨v, rest⟩⟩⟩ <;>
    rw [hs] at h hj <;> simp at h
  obtain ⟨rfl, rfl⟩ := h
  simpa [joinWith] using hj

/-- A successful decomposition means the stem has exactly one `'_'`. -/
theorem decomposeFilename_isSome_iff (f : PyStr) :
    (decomposeFilename f).isSome = true ↔ (stemOf f).count '_' = 1 := by
  have hl := splitOnChar_length '_' (stemOf f)
  unfold decomposeFilename
  rcases hs : splitOnChar '_' (stemOf f) with _ | ⟨s, _ | ⟨u, _ | ⟨v, rest⟩⟩⟩ <;>
    rw [hs] at hl <;> simp at hl ⊢ <;> omega

theorem strLe_refl (s : PyStr) : strLe s s = true := by
  induction s with
  | nil => rfl
  | cons a as ih => simp [strLe, ih]

theorem strLe_total (a b : PyStr) : strLe a b = true ∨ strLe b a = true := by
  induction a generalizing b with
  | nil => left; rfl
  | cons x xs ih =>
    cases b with
    | nil => right; rfl
    | cons y ys =>
      by_cases hxy : x = y
      · subst hxy
        simpa [strLe] using ih ys
      · rcases lt_or_gt_of_ne hxy with h | h
        · left; simp [strLe, hxy, h]
        · right
          have hyx : y ≠ x := fun hyx => hxy hyx.symm
          simp [strLe, hyx, h]

theorem strLe_trans {a b c : PyStr} (h1 : strLe a b = true) (h2 : strLe b c = true) :
    strLe a c = true := by
  induction a generalizing b c with
  | nil => rfl
  | cons x xs ih =>
    cases b with
    | nil => simp [strLe] at h1
    | cons y ys =>
      cases c with
      | nil => simp [strLe] at h2
      | cons z zs =>
        by_cases hxy : x = y <;> by_cases hyz : y = z
        · subst hxy; subst hyz
          simp only [strLe, if_pos rfl] at h1 h2 ⊢
          exact ih h1 h2
        · subst hxy
          simp only [strLe, if_pos rfl, if_neg hyz] at h2 ⊢
          exact h2
        · subst hyz
          simp only [strLe, if_pos rfl, if_neg hxy] at h1 ⊢
          exact h1
        · simp only [strLe, if_neg hxy, if_neg hyz, decide_eq_true_eq] at h1 h2
          have hxz : x < z := lt_trans h1 h2
          simp [strLe, ne_of_lt hxz, hxz]

theorem length_orderedInsertStr (x : PyStr) (l : List PyStr) :
    (orderedInsertStr x l).length = l.length + 1 := by
  induction l with
  | nil => rfl
  | cons y ys ih =>
    simp only [orderedInsertStr]
    split
    · simp
    · simp [ih]

theorem mem_orderedInsertStr {y x : PyStr} {l : List PyStr} :
    y ∈ orderedInsertStr x l ↔ y = x ∨ y ∈ l := by
  induction l with
  | nil => simp [orderedInsertStr]
  | cons z zs ih =>
    simp only [orderedInsertStr]
    split
    · simp [List.mem_cons]
    · simp only [List.mem_cons, ih]
      tauto

theorem length_sortStrings (l : List PyStr) : (sortStrings l).length = l.length := by
  induction l with
  | nil => rfl
  | cons x xs ih => simp [sortStrings, length_orderedInsertStr, ih]

theorem mem_sortStrings {y : PyStr} {l : List PyStr} : y ∈ sortStrings l ↔ y ∈ l := by
  induction l with
  | nil => simp [sortStrings]
  | cons x xs ih => simp [sortStrings, mem_orderedInsertStr, ih]

theorem pairwise_orderedInsertStr {x : PyStr} {l : List PyStr}
    (h : l.Pairwise (fun a b => strLe a b = true)) :
    (orderedInsertStr x l).Pairwise (fun a b => strLe a b = true) := by
  induction l with
  | nil => simp [orderedInsertStr]
  | cons y ys ih =>
    simp only [orderedInsertStr]
    rcases List.pairwise_cons.mp h with ⟨hy, hys⟩
    split
    · rename_i hxy
      refine List.pairwise_cons.mpr ⟨?_, h⟩
      intro z hz
      rcases List.mem_cons.mp hz with rfl | hz
      · exact hxy
      · exact strLe_trans hxy (hy z hz)
    · rename_i hxy
      refine List.pairwise_cons.mpr ⟨?_, ih hys⟩
      intro z hz
      rcases mem_orderedInsertStr.mp hz with rfl | hz
      · rcases strLe_total z y with h' | h'
        · exact absurd h' hxy
        · exact h'
      · exact hy z hz

theorem pairwise_sortStrings (l : List PyStr) :
    (sortStrings l).Pairwise (fun a b => strLe a b = true) := by
  induction l with
  | nil => simp [sortStrings]
  | cons x xs ih => exact pairwise_orderedInsertStr ih

theorem dictKeys_dictInsert (cfg : Manifest) (k : PyStr) (v : PyStr × Int) :
    dictKeys (dictInsert cfg k v) =
      if k ∈ dictKeys cfg then dictKeys cfg else dictKeys cfg ++ [k] := by
  unfold dictInsert
  by_cases hk : k ∈ dictKeys cfg
  · rw [if_pos hk, if_pos hk]
    unfold dictKeys
    rw [List.map_map]
    apply List.map_congr_left
    intro e _
    by_cases he : e.1 = k
    · simp [he]
    · simp [he]
  · rw [if_neg hk, if_neg hk]
    unfold dictKeys
    simp

theorem nodup_dictKeys_dictInsert {cfg : Manifest} {k : PyStr} {v : PyStr × Int}
    (h : (dictKeys cfg).Nodup) : (dictKeys (dictInsert cfg k v)).Nodup := by
  rw [dictKeys_dictInsert]
  by_cases hk : k ∈ dictKeys cfg
  · rwa [if_pos hk]
  · rw [if_neg hk]
    refine List.Nodup.append h (List.nodup_singleton k) ?_
    intro a ha hb
    rw [List.mem_singleton] at hb
    subst hb
    exact hk ha

theorem processLines_ok_mem {lines : List PyStr} {cfg out : Manifest}
    (h : processLines lines cfg = Except.ok out) (k : PyStr) :
    k ∈ dictKeys out ↔ k ∈ dictKeys cfg ∨ k ∈ lineNames lines := by
  induction lines generalizing cfg with
  | nil =>
    simp only [processLines, Except.ok.injEq] at h
    subst h
    simp [lineNames]
  | cons line rest ih =>
    simp only [processLines] at h
    by_cases hl : line = []
    · rw [if_pos hl] at h
      simp only [lineNames, if_pos hl]
      exact ih h
    · rw [if_neg hl] at h
      simp only [lineNames, if_neg hl]
      cases hp : parseLine line with
      | none => rw [hp] at h; exact absurd h (by simp)
      | some t =>
        obtain ⟨f, s, c⟩ := t
        rw [hp] at h
        rw [ih h, dictKeys_dictInsert]
        by_cases hf : f ∈ dictKeys cfg
        · rw [if_pos hf]
          simp only [List.mem_cons]
          constructor
          · tauto
          · rintro (hkc | rfl | hrest)
            · exact Or.inl hkc
            · exact Or.inl hf
            · exact Or.inr hrest
        · rw [if_neg hf]
          simp only [List.mem_append, List.mem_singleton, List.mem_cons]
          tauto

theorem processLines_ok_nodup {lines : List PyStr} {cfg out : Manifest}
    (h : processLines lines cfg = Except.ok out) (hn : (dictKeys cfg).Nodup) :
    (dictKeys out).Nodup := by
  induction lines generalizing cfg with
  | nil =>
    simp only [processLines, Except.ok.injEq] at h
    subst h
    exact hn
  | cons line rest ih =>
    simp only [processLines] at h
    by_cases hl : line = []
    · rw [if_pos hl] at h
      exact ih h hn
    · rw [if_neg hl] at h
      cases hp : parseLine line with
      | none => rw [hp] at h; exact absurd h (by simp)
      | some t =>
        obtain ⟨f, s, c⟩ := t
        rw [hp] at h
        exact ih h (nodup_dictKeys_dictInsert hn)

theorem processLines_error_of_bad {lines : List PyStr} {l : PyStr}
    (hmem : l ∈ lines) (hne : l ≠ []) (hbad : parseLine l = none) :
    ∀ cfg : Manifest, processLines lines cfg = Except.error () := by
  induction lines with
  | nil => simp at hmem
  | cons line rest ih =>
    intro cfg
    simp only [processLines]
    rcases List.mem_cons.mp hmem with rfl | hmem'
    · rw [if_neg hne, hbad]
    · by_cases hl : line = []
      · rw [if_pos hl]
        exact ih hmem' cfg
      · rw [if_neg hl]
        cases hp : parseLine line with
        | none => rfl
        | some t =>
          obtain ⟨f, s, c⟩ := t
          exact ih hmem' _

theorem loadConfigLoop_eq (skip : Nat) (lines : List PyStr) :
    ∀ (i : Nat) (cfg : Manifest),
      loadConfigLoop skip i lines cfg = processLines (lines.drop (skip - i)) cfg := by
  induction lines with
  | nil => intro i cfg; simp [loadConfigLoop, processLines]
  | cons line rest ih =>
    intro i cfg
    by_cases hi : i < skip
    · have h1 : skip - i = (skip - (i + 1)) + 1 := by omega
      rw [h1]
      simp only [loadConfigLoop, if_pos (Or.inl hi), List.drop_succ_cons]
      exact ih (i + 1) cfg
    · have h0 : skip - i = 0 := by omega
      have h0' : skip - (i + 1) = 0 := by omega
      rw [h0, List.drop_zero]
      simp only [loadConfigLoop, processLines]
      by_cases hl : line = []
      · rw [if_pos (Or.inr hl), if_pos hl, ih (i + 1) cfg, h0', List.drop_zero]
      · rw [if_neg (by tauto), if_neg hl]
        cases hp : parseLine line with
        | none => rfl
        | some t =>
          obtain ⟨f, s, c⟩ := t
          show loadConfigLoop skip (i + 1) rest (dictInsert cfg f (s, c)) =
            processLines rest (dictInsert cfg f (s, c))
          rw [ih (i + 1) _, h0', List.drop_zero]

/-- The parse `_load_config` skips the header and processes every later line. -/
theorem loadConfig_eq_processLines (subset : String) (lines : List PyStr) :
    loadConfig subset lines = processLines (lines.drop (skipRows subset)) [] := by
  unfold loadConfig
  simpa using loadConfigLoop_eq (skipRows subset) lines 0 []

/-- File iteration never yields an empty string. -/
theorem ne_nil_of_mem_pyLinesAux :
    ∀ (cs acc l : PyStr), l ∈ pyLinesAux cs acc → l ≠ [] := by
  intro cs
  induction cs with
  | nil =>
    intro acc l hl
    simp only [pyLinesAux] at hl
    by_cases ha : acc = []
    · rw [if_pos ha] at hl
      simp at hl
    · rw [if_neg ha] at hl
      rcases List.mem_singleton.mp hl with rfl
      simpa using ha
  | cons c cs ih =>
    intro acc l hl
    simp only [pyLinesAux] at hl
    by_cases hc : c = '\n'
    · rw [if_pos hc] at hl
      rcases List.mem_cons.mp hl with rfl | hl
      · simp
      · exact ih [] l hl
    · rw [if_neg hc] at hl
      exact ih (c :: acc) l hl

theorem ne_nil_of_mem_pyLines {content l : PyStr} (h : l ∈ pyLines content) : l ≠ [] :=
  ne_nil_of_mem_pyLinesAux content [] l h

/-- Python list indexing fails exactly outside `[-len, len)`. -/
theorem pyListGet_eq_none_iff {α : Type} (l : List α) (n : Int) :
    pyListGet l n = none ↔ n < -(l.length : Int) ∨ (l.length : Int) ≤ n := by
  unfold pyListGet
  by_cases hn : n < 0
  · simp only [if_pos hn]
    by_cases h2 : (0 : Int) ≤ n + l.length
    · rw [if_pos h2, List.getElem?_eq_none_iff]
      constructor
      · intro h; omega
      · intro h; omega
    · rw [if_neg h2]
      constructor
      · intro _; omega
      · intro _; rfl
  · simp only [if_neg hn]
    rw [if_pos (by omega), List.getElem?_eq_none_iff]
    constructor
    · intro h; omega
    · intro h; omega

/-- A successful construction stores the parsed manifest and its sorted
keys (extraction lemma for `construct`). -/
theorem construct_ok {root : PyStr} {subset : String} {download : Bool} {w : World}
    {d : DRVCTK} (h : (construct root subset download w).1 = Except.ok d) :
    loadConfig subset (pyLines w.configContent) = Except.ok d.config ∧
    d.filenameList = sortStrings (dictKeys d.config) := by
  unfold construct at h
  by_cases hsub : subset ∈ supportedSubsets
  · rw [if_pos hsub] at h
    obtain ⟨rid, aif, cv, cc⟩ := w
    cases rid <;> cases aif <;> cases cv <;> cases download <;>
      cases hc : loadConfig subset (pyLines cc) with
        | error e => rw [hc] at h; simp at h
        | ok cfg =>
          rw [hc] at h
          simp at h
          try (subst h; exact ⟨rfl, rfl⟩)
  · rw [if_neg hsub] at h
    exact absurd h (by simp)

/-- C4: the manifest parse skips exactly the first two lines as header for
subset "train" and exactly the first one line for subset "test",
independently of those lines' content, and treats every later line as a
data line (processed uniformly by the data-line loop body). -/
theorem c4_header_skip_exact (lines : List PyStr) :
    loadConfig "train" lines = processLines (lines.drop 2) [] ∧
    loadConfig "test" lines = processLines (lines.drop 1) [] := by
  constructor
  · simpa [skipRows] using loadConfig_eq_processLines "train" lines
  · simpa [skipRows] using loadConfig_eq_processLines "test" lines

/-- C5: a non-header line that does not split into exactly three
tab-separated fields, or whose third field is not an integer, makes the
whole parse fail with an error; no mapping is produced. -/
theorem c5_malformed_line_fails (subset : String) (lines : List PyStr) (l : PyStr)
    (hmem : l ∈ lines.drop (skipRows subset)) (hne : l ≠ [])
    (hbad : (splitOnChar '\t' (pyStrip l)).length ≠ 3 ∨
      ∃ f s c, splitOnChar '\t' (pyStrip l) = [f, s, c] ∧ pyInt c = none) :
    loadConfig subset lines = Except.error () := by
  have hpl : parseLine l = none := by
    unfold parseLine
    rcases hbad with hlen | ⟨f, s, c, hsplit, hint⟩
    · rcases hsp : splitOnChar '\t' (pyStrip l) with
        _ | ⟨a, _ | ⟨b, _ | ⟨c', _ | ⟨d', rest⟩⟩⟩⟩
      · rfl
      · rfl
      · rfl
      · exact absurd (by rw [hsp]; rfl) hlen
      · rfl
    · rw [hsplit]
      show (match pyInt c with | some k => some (f, s, k) | none => none) = none
      rw [hint]
  rw [loadConfig_eq_processLines]
  exact processLines_error_of_bad hmem hne hpl []

/-- C5 witness: a two-field line after the header aborts the parse. -/
theorem c5_malformed_line_fails_witness :
    "a\tb".data ∈ ["h".data, "a\tb".data].drop (skipRows "test") ∧
    "a\tb".data ≠ ([] : PyStr) ∧
    (splitOnChar '\t' (pyStrip "a\tb".data)).length ≠ 3 ∧
    loadConfig "test" ["h".data, "a\tb".data] = Except.error () :=
  ⟨by decide, by decide, by decide,
    c5_malformed_line_fails "test" ["h".data, "a\tb".data] "a\tb".data
      (by decide) (by decide) (Or.inl (by decide))⟩

/-- C10: a blank (whitespace-only) line after the header fails the whole
parse: file iteration never yields the empty string (so the `not line`
guard cannot fire for it), the stripped line becomes empty and fails the
three-field split. -/
theorem c10_blank_line_fails (subset : String) (content : PyStr) (l : PyStr)
    (hmem : l ∈ (pyLines content).drop (skipRows subset))
    (hblank : pyStrip l = []) :
    l ≠ [] ∧ loadConfig subset (pyLines content) = Except.error () := by
  have hne : l ≠ [] := ne_nil_of_mem_pyLines (List.mem_of_mem_drop hmem)
  refine ⟨hne, ?_⟩
  have hpl : parseLine l = none := by
    unfold parseLine
    rw [hblank]
    rfl
  rw [loadConfig_eq_processLines]
  exact processLines_error_of_bad hmem hne hpl []

/-- C10 witness: a bare newline after the two train header lines aborts
the parse of an otherwise well-formed manifest. -/
theorem c10_blank_line_fails_witness :
    "\n".data ∈ (pyLines "h1\nh2\n\na_b.wav\tDR\t1\n".data).drop (skipRows "train") ∧
    pyStrip "\n".data = ([] : PyStr) ∧
    ("\n".data ≠ ([] : PyStr) ∧
      loadConfig "train" (pyLines "h1\nh2\n\na_b.wav\tDR\t1\n".data) = Except.error ()) :=
  ⟨by decide, by decide,
    c10_blank_line_fails "train" "h1\nh2\n\na_b.wav\tDR\t1\n".data "\n".data
      (by decide) (by decide)⟩

theorem getItem_eq_of_none {W : Type} (decode : PyStr → W × Int) (d : DRVCTK) (n : Int)
    (h : pyListGet d.filenameList n = none) :
    getItem decode d n = Except.error GetError.indexError := by
  unfold getItem
  rw [h]

theorem getItem_eq_of_some {W : Type} (decode : PyStr → W × Int) (d : DRVCTK) (n : Int)
    (f : PyStr) (h : pyListGet d.filenameList n = some f) :
    getItem decode d n = loadDrVctkItem decode d f := by
  unfold getItem
  rw [h]

theorem loadDrVctkItem_decompositionError {W : Type} (decode : PyStr → W × Int) (d : DRVCTK)
    (f : PyStr) (h : decomposeFilename f = none) :
    loadDrVctkItem decode d f = Except.error GetError.decompositionError := by
  unfold loadDrVctkItem
  rw [h]

theorem loadDrVctkItem_keyError {W : Type} (decode : PyStr → W × Int) (d : DRVCTK)
    (f sp ut : PyStr) (h1 : decomposeFilename f = some (sp, ut))
    (h2 : dictLookup d.config f = none) :
    loadDrVctkItem decode d f = Except.error GetError.keyError := by
  unfold loadDrVctkItem
  rw [h1, h2]

theorem loadDrVctkItem_ok {W : Type} (decode : PyStr → W × Int) (d : DRVCTK)
    (f sp ut src : PyStr) (ch : Int) (h1 : decomposeFilename f = some (sp, ut))
    (h2 : dictLookup d.config f = some (src, ch)) :
    loadDrVctkItem decode d f = Except.ok
      { waveformClean := (decode (pathJoin d.cleanAudioDir f)).1,
        sampleRateClean := (decode (pathJoin d.cleanAudioDir f)).2,
        waveformNoisy := (decode (pathJoin d.noisyAudioDir f)).1,
        sampleRateNoisy := (decode (pathJoin d.noisyAudioDir f)).2,
        speakerId := sp, utteranceId := ut, source := src, channelId := ch } := by
  unfold loadDrVctkItem
  rw [h1, h2]

/-- C1 counterexample: the claim fails as stated.  The dotless filename
`a_b` is accepted by the parser, indexed, and loaded successfully by
`get(0)` (a valid index of a constructed dataset), yet joining the 5th
and 6th fields with `_` and appending `.` plus the extension cannot
reconstruct `a_b` (shown with the extension-after-first-dot, which is
empty here because the filename contains no `.` at all). -/
theorem c1_roundtrip_counterexample :
    (construct drvRoot "train" false c1CexWorld).1 = Except.ok c1CexD ∧
    (0 : Int) ≤ 0 ∧ (0 : Int) < (datasetLength c1CexD : Int) ∧
    pyListGet c1CexD.filenameList 0 = some "a_b".data ∧
    ('.' ∉ "a_b".data) ∧
    getItem unitDecode c1CexD 0 = Except.ok c1CexSample ∧
    c1CexSample.speakerId ++ '_' :: c1CexSample.utteranceId ++ '.' :: extOf "a_b".data ≠
      "a_b".data := by
  refine ⟨?_, ?_, ?_, ?_, ?_, ?_, ?_⟩ <;> decide

/-- C1 (amended): for every valid index `n` whose looked-up filename
contains a `.`, the tuple returned by `get(n)` satisfies the round-trip:
joining the 5th and 6th fields with `_` and appending `.` plus the
extension (everything after the FIRST `.`) reconstructs the filename; a
dotless filename may also load, in which case the joined fields alone
reconstruct it with nothing appended. -/
theorem c1_roundtrip_amended {W : Type} (decode : PyStr → W × Int) (d : DRVCTK)
    (n : Int) (f : PyStr) (s : Sample W)
    (hf : pyListGet d.filenameList n = some f)
    (hs : getItem decode d n = Except.ok s) :
    s.speakerId ++ '_' :: s.utteranceId ++ (if '.' ∈ f then '.' :: extOf f else []) = f := by
  rw [getItem_eq_of_some decode d n f hf] at hs
  cases hd2 : decomposeFilename f with
  | none =>
    rw [loadDrVctkItem_decompositionError decode d f hd2] at hs
    exact absurd hs (by simp)
  | some p =>
    obtain ⟨sp, ut⟩ := p
    cases hl : dictLookup d.config f with
    | none =>
      rw [loadDrVctkItem_keyError decode d f sp ut hd2 hl] at hs
      exact absurd hs (by simp)
    | some v =>
      obtain ⟨src, ch⟩ := v
      rw [loadDrVctkItem_ok decode d f sp ut src ch hd2 hl] at hs
      simp only [Except.ok.injEq] at hs
      subst hs
      show sp ++ '_' :: ut ++ (if '.' ∈ f then '.' :: extOf f else []) = f
      rw [show sp ++ '_' :: ut = stemOf f from decomposeFilename_join hd2]
      exact stemOf_append_extOf f

/-- C1 witness: the round-trip at the conventional filename
`p225_001.wav`. -/
theorem c1_roundtrip_amended_witness :
    pyListGet c1WitD.filenameList 0 = some "p225_001.wav".data ∧
    getItem unitDecode c1WitD 0 = Except.ok c1WitSample ∧
    c1WitSample.speakerId ++ '_' :: c1WitSample.utteranceId ++
      (if '.' ∈ "p225_001.wav".data then '.' :: extOf "p225_001.wav".data else []) =
      "p225_001.wav".data :=
  ⟨by decide, by decide,
    c1_roundtrip_amended unitDecode c1WitD 0 "p225_001.wav".data c1WitSample
      (by decide) (by decide)⟩

/-- C2 counterexample: the claim fails as stated for negative indices.
On a constructed one-sample dataset, `get(-1)` — with `-1` outside
`[0, length())` — does not raise an index error; Python's negative list
indexing resolves it to the last sample, which is returned. -/
theorem c2_index_error_counterexample :
    (construct drvRoot "test" false c2CexWorld).1 = Except.ok c2CexD ∧
    ((-1 : Int) < 0) ∧ datasetLength c2CexD = 1 ∧
    getItem unitDecode c2CexD (-1) ≠ Except.error GetError.indexError ∧
    getItem unitDecode c2CexD (-1) = Except.ok c2CexSample := by
  refine ⟨?_, ?_, ?_, ?_, ?_⟩ <;> decide

/-- C2 (amended): `get(n)` raises an index error exactly when
`n ≥ length()` or `n < -length()`; for `-length() ≤ n < 0` Python's
negative indexing applies and no index error is raised. -/
theorem c2_index_error_iff {W : Type} (decode : PyStr → W × Int) (d : DRVCTK) (n : Int) :
    getItem decode d n = Except.error GetError.indexError ↔
      n < -(datasetLength d : Int) ∨ (datasetLength d : Int) ≤ n := by
  unfold datasetLength
  cases hg : pyListGet d.filenameList n with
  | none =>
    rw [getItem_eq_of_none decode d n hg]
    exact ⟨fun _ => (pyListGet_eq_none_iff d.filenameList n).mp hg, fun _ => rfl⟩
  | some f =>
    rw [getItem_eq_of_some decode d n f hg]
    have hnot : ¬(n < -(d.filenameList.length : Int) ∨ (d.filenameList.length : Int) ≤ n) := by
      intro hcontra
      rw [← pyListGet_eq_none_iff d.filenameList n] at hcontra
      rw [hg] at hcontra
      exact absurd hcontra (by simp)
    constructor
    · intro habs
      exfalso
      cases hd2 : decomposeFilename f with
      | none =>
        rw [loadDrVctkItem_decompositionError decode d f hd2] at habs
        simp at habs
      | some p =>
        obtain ⟨sp, ut⟩ := p
        cases hl : dictLookup d.config f with
        | none =>
          rw [loadDrVctkItem_keyError decode d f sp ut hd2 hl] at habs
          simp at habs
        | some v =>
          obtain ⟨src, ch⟩ := v
          rw [loadDrVctkItem_ok decode d f sp ut src ch hd2 hl] at habs
          simp at habs
    · intro hcontra
      exact absurd hcontra hnot

/-- C3 counterexample: the claim fails as stated.  The filename
`a_b.c.d` contains two `.` characters — violating the "exactly one `.`"
convention — yet `get(0)` does not fail with a decomposition error: it
returns a tuple, because the code only splits off the part before the
FIRST `.` and that part (`a_b`) has exactly one `_`. -/
theorem c3_decomposition_counterexample :
    ("a_b.c.d".data.count '.') = 2 ∧
    (construct drvRoot "test" false c3CexWorld).1 = Except.ok c3CexD ∧
    pyListGet c3CexD.filenameList 0 = some "a_b.c.d".data ∧
    getItem unitDecode c3CexD 0 ≠ Except.error GetError.decompositionError ∧
    getItem unitDecode c3CexD 0 = Except.ok c3CexSample := by
  refine ⟨?_, ?_, ?_, ?_, ?_⟩ <;> decide

/-- C3 (amended): `get(n)` fails with a decomposition error exactly when
the looked-up filename's part before the first `.` does not contain
exactly one `_`; extra `.` characters after the first, or the absence of
a `.`, do not by themselves cause a failure. -/
theorem c3_decomposition_error_iff {W : Type} (decode : PyStr → W × Int) (d : DRVCTK)
    (n : Int) (f : PyStr) (hf : pyListGet d.filenameList n = some f) :
    (getItem decode d n = Except.error GetError.decompositionError ↔
      (stemOf f).count '_' ≠ 1) := by
  rw [getItem_eq_of_some decode d n f hf]
  have hiff := decomposeFilename_isSome_iff f
  cases hd2 : decomposeFilename f with
  | none =>
    rw [loadDrVctkItem_decompositionError decode d f hd2]
    rw [hd2] at hiff
    simp only [Option.isSome_none, Bool.false_eq_true, false_iff] at hiff
    simp only [eq_self_iff_true, true_iff]
    exact hiff
  | some p =>
    obtain ⟨sp, ut⟩ := p
    rw [hd2] at hiff
    simp only [Option.isSome_some, true_iff] at hiff
    cases hl : dictLookup d.config f with
    | none =>
      rw [loadDrVctkItem_keyError decode d f sp ut hd2 hl]
      simp [hiff]
    | some v =>
      obtain ⟨src, ch⟩ := v
      rw [loadDrVctkItem_ok decode d f sp ut src ch hd2 hl]
      simp [hiff]

/-- C3 witness: `ab.wav` (no `_` before the first `.`) is looked up at a
valid index and `get` fails with a decomposition error. -/
theorem c3_decomposition_error_iff_witness :
    pyListGet c3WitD.filenameList 0 = some "ab.wav".data ∧
    (getItem unitDecode c3WitD 0 = Except.error GetError.decompositionError ↔
      (stemOf "ab.wav".data).count '_' ≠ 1) :=
  ⟨by decide,
    c3_decomposition_error_iff unitDecode c3WitD 0 "ab.wav".data (by decide)⟩

/-- C6: for every successfully constructed dataset, `length()` equals the
number of unique filenames among the data lines of the manifest file
(duplicates counted once; the mapping keeps one entry per unique
filename, later duplicates overwriting earlier ones in `dictInsert`). -/
theorem c6_length_eq_unique_filenames (root : PyStr) (subset : String) (download : Bool)
    (w : World) (d : DRVCTK)
    (hd : (construct root subset download w).1 = Except.ok d) :
    datasetLength d =
      (lineNames ((pyLines w.configContent).drop (skipRows subset))).dedup.length := by
  obtain ⟨hcfg, hlist⟩ := construct_ok hd
  rw [loadConfig_eq_processLines] at hcfg
  have hnd : (dictKeys d.config).Nodup :=
    processLines_ok_nodup hcfg (by simp [dictKeys])
  have hmem : ∀ k, k ∈ dictKeys d.config ↔
      k ∈ lineNames ((pyLines w.configContent).drop (skipRows subset)) := by
    intro k
    have h := processLines_ok_mem hcfg k
    simpa [dictKeys] using h
  unfold datasetLength
  rw [hlist, length_sortStrings]
  have hperm : List.Perm (dictKeys d.config)
      (lineNames ((pyLines w.configContent).drop (skipRows subset))).dedup := by
    rw [List.perm_ext_iff_of_nodup hnd (List.nodup_dedup _)]
    intro a
    rw [hmem a, List.mem_dedup]
  exact hperm.length_eq

/-- C6 witness: a manifest whose three data lines contain the duplicate
filename `x` twice and `y` once yields `length() = 2`. -/
theorem c6_length_eq_unique_filenames_witness :
    (construct drvRoot "test" false c6WitWorld).1 = Except.ok c6WitD ∧
    datasetLength c6WitD = 2 ∧
    datasetLength c6WitD =
      (lineNames ((pyLines c6WitWorld.configContent).drop (skipRows "test"))).dedup.length :=
  ⟨by decide, by decide,
    c6_length_eq_unique_filenames drvRoot "test" false c6WitWorld c6WitD (by decide)⟩

/-- C7: the sample index of a successfully constructed dataset is the
manifest keys sorted ascending (a function of manifest content only), so
for all `i ≤ j` the filename at index `i` is lexicographically at most
the filename at index `j`. -/
theorem c7_index_sorted (root : PyStr) (subset : String) (download : Bool)
    (w : World) (d : DRVCTK)
    (hd : (construct root subset download w).1 = Except.ok d)
    (i j : Nat) (hij : i ≤ j) (fi fj : PyStr)
    (hi : d.filenameList[i]? = some fi) (hj : d.filenameList[j]? = some fj) :
    d.filenameList = sortStrings (dictKeys d.config) ∧ strLe fi fj = true := by
  obtain ⟨hcfg, hlist⟩ := construct_ok hd
  refine ⟨hlist, ?_⟩
  have hpw : d.filenameList.Pairwise (fun a b => strLe a b = true) := by
    rw [hlist]
    exact pairwise_sortStrings _
  obtain ⟨hilen, hival⟩ := List.getElem?_eq_some_iff.mp hi
  obtain ⟨hjlen, hjval⟩ := List.getElem?_eq_some_iff.mp hj
  rcases Nat.lt_or_ge i j with hlt | hge
  · have := List.pairwise_iff_getElem.mp hpw i j hilen hjlen hlt
    rwa [hival, hjval] at this
  · have hji : i = j := Nat.le_antisymm hij hge
    subst hji
    rw [hival] at hjval
    subst hjval
    exact strLe_refl fi

/-- C7 witness: manifest lines arrive in the order `b.wav`, `a.wav`, yet
index 0 resolves to `a.wav` and index 1 to `b.wav`. -/
theorem c7_index_sorted_witness :
    (construct drvRoot "test" false c7WitWorld).1 = Except.ok c7WitD ∧
    (0 : Nat) ≤ 1 ∧
    c7WitD.filenameList[0]? = some "a.wav".data ∧
    c7WitD.filenameList[1]? = some "b.wav".data ∧
    (c7WitD.filenameList = sortStrings (dictKeys c7WitD.config) ∧
      strLe "a.wav".data "b.wav".data = true) :=
  ⟨by decide, by decide, by decide, by decide,
    c7_index_sorted drvRoot "test" false c7WitWorld c7WitD (by decide) 0 1 (by decide)
      "a.wav".data "b.wav".data (by decide) (by decide)⟩

/-- C8: constructing with any subset outside {"train", "test"} fails with
the configuration error and performs no collaborator invocation at all
(empty effect trace: no directory check, no file open, no download). -/
theorem c8_invalid_subset_no_io (root : PyStr) (subset : String) (download : Bool)
    (w : World) (h1 : subset ≠ "train") (h2 : subset ≠ "test") :
    construct root subset download w = (Except.error CError.invalidSubset, []) := by
  unfold construct
  rw [if_neg]
  simp [supportedSubsets, h1, h2]

/-- C8 witness: subset "valid" is rejected with no effects. -/
theorem c8_invalid_subset_no_io_witness :
    ("valid" : String) ≠ "train" ∧ ("valid" : String) ≠ "test" ∧
    construct drvRoot "valid" true c8WitWorld = (Except.error CError.invalidSubset, []) :=
  ⟨by decide, by decide,
    c8_invalid_subset_no_io drvRoot "valid" true c8WitWorld (by decide) (by decide)⟩

/-- C9: whenever the dataset root is absent and the archive is present or
about to be downloaded, the checksum is verified; if it does not match,
construction fails with the integrity error and the extraction
collaborator is never invoked. -/
theorem c9_checksum_guards_extraction (root : PyStr) (subset : String) (download : Bool)
    (w : World) (hsub : subset = "train" ∨ subset = "test")
    (hdir : w.rootIsDir = false)
    (havail : w.archiveIsFile = true ∨ download = true) :
    Effect.validateChecksum ∈ (construct root subset download w).2 ∧
    (w.checksumValid = false →
      (construct root subset download w).1 = Except.error CError.checksumMismatch ∧
      Effect.extractArchive ∉ (construct root subset download w).2) := by
  have hsub' : subset ∈ supportedSubsets := by
    rcases hsub with rfl | rfl <;> simp [supportedSubsets]
  obtain ⟨rid, aif, cv, cc⟩ := w
  replace hdir : rid = false := hdir
  replace havail : aif = true ∨ download = true := havail
  subst hdir
  cases aif
  case false =>
    cases download
    case false => exact absurd havail (by simp)
    case true =>
      cases cv <;>
        (cases hlc : loadConfig subset (pyLines cc) <;> simp [construct, hsub', hlc])
  case true =>
    cases download <;> cases cv <;>
      (cases hlc : loadConfig subset (pyLines cc) <;> simp [construct, hsub', hlc])

/-- C9 witness: root absent, archive present, checksum invalid: the
checksum is consulted, construction fails, extraction never runs. -/
theorem c9_checksum_guards_extraction_witness :
    ("train" = "train" ∨ ("train" : String) = "test") ∧
    c9WitWorld.rootIsDir = false ∧
    (c9WitWorld.archiveIsFile = true ∨ false = true) ∧
    c9WitWorld.checksumValid = false ∧
    (Effect.validateChecksum ∈ (construct drvRoot "train" false c9WitWorld).2 ∧
      ((construct drvRoot "train" false c9WitWorld).1 = Except.error CError.checksumMismatch ∧
        Effect.extractArchive ∉ (construct drvRoot "train" false c9WitWorld).2)) := by
  refine ⟨Or.inl rfl, rfl, Or.inl rfl, rfl, ?_, ?_⟩
  · exact (c9_checksum_guards_extraction drvRoot "train" false c9WitWorld
      (Or.inl rfl) rfl (Or.inl rfl)).1
  · exact (c9_checksum_guards_extraction drvRoot "train" false c9WitWorld
      (Or.inl rfl) rfl (Or.inl rfl)).2 rfl
